import Mathlib

/-!
A shallow embedding of the identifier-resolution and message-delivery pipeline
of the slck command-line chat client: the channel resolver, the user resolver
with its display-name cache, the message composer, and the three-phase file
delivery pipeline, together with theorems checking the natural-language
specification of those components.

Strings are modelled as `List Char`.  The platform API transport (channel
listing, user-info lookup, message posting, upload-slot request, raw byte
upload, upload finalize) is modelled as an explicit environment of call
results, and every externally visible call is recorded in an effect trace so
that theorems can speak about which network calls a code path performs.
-/

namespace Slck

/-- Model of `strings.TrimPrefix(s, "#")`: strip one leading hash if present. -/
def trimHash : List Char → List Char
  | '#' :: rest => rest
  | s => s

/-- The suffix loop of `IsChannelID` (channel_resolver.go lines 52-60): walk the
characters after the prefix, tracking whether a digit was seen, and reject any
character that is neither a digit nor an uppercase ASCII letter. -/
def idSuffixCheck : List Char → Bool → Bool
  | [], hasDigit => hasDigit
  | c :: cs, hasDigit =>
    if c.isDigit then idSuffixCheck cs true
    else if !c.isUpper then false
    else idSuffixCheck cs hasDigit

/-- `IsChannelID` from channel_resolver.go: true when the string has length at
least two, starts with C, G or D, and its remainder is uppercase-alphanumeric
with at least one digit. -/
def IsChannelID (s : List Char) : Bool :=
  if s.length < 2 then false
  else
    match s with
    | [] => false
    | p :: rest =>
      if p == 'C' || p == 'G' || p == 'D' then
        if rest.isEmpty then false else idSuffixCheck rest false
      else false

/-- A Block Kit text object: a type tag (for example "mrkdwn") and text. -/
structure TextObj where
  type : List Char
  text : List Char
deriving DecidableEq, Repr

/-- A structured message block, as far as this pipeline inspects one: a type
tag (for example "section") and a text object. -/
structure Block where
  type : List Char
  text : TextObj
deriving DecidableEq, Repr

/-- One externally visible action of the pipeline.  Local stat/open calls are
not effects; reads of stdin and of the blocks file are recorded because the
specification talks about when the blocks source is read. -/
inductive Effect where
  | readStdin
  | readBlocksFile (path : List Char)
  | listChannels
  | getUploadURL (filename : List Char) (size : Nat)
  | uploadBytes (url : List Char)
  | completeUpload (files : List (List Char × List Char)) (channelID : List Char)
  | sendMessage (channelID text threadTS : List Char)
      (blocks : Option (List Block)) (unfurl : Bool)
deriving DecidableEq, Repr

/-- The fields of a platform user record that the user resolver reads:
`user.Name`, `user.RealName` and `user.Profile.DisplayName`. -/
structure User where
  name : List Char
  realName : List Char
  displayName : List Char
deriving DecidableEq, Repr

/-- The user resolver's display-name cache (a Go `map[string]string`). -/
abbrev Cache := List (List Char × List Char)

/-- Map lookup in the cache; a consed entry shadows older ones, matching
insertion into a Go map. -/
def lookupCache : Cache → List Char → Option (List Char)
  | [], _ => none
  | (k, v) :: rest, id => if k = id then some v else lookupCache rest id

/-- The result of `GetUserInfo`: the platform either returns a user record or
fails (unknown ID, network failure, decode failure - all alike). -/
abbrev UserEnv := List Char → Except Unit User

/-- One channel returned by the channel listing. -/
structure Chan where
  id : List Char
  name : List Char
deriving DecidableEq, Repr

/-- ASCII model of `strings.EqualFold`: case-insensitive equality. -/
def equalFold (a b : List Char) : Bool :=
  a.map Char.toLower == b.map Char.toLower

/-- `lookupChannelByName` from channel_resolver.go: normalize the name
(lowercase, strip a leading hash), fetch the channel listing (one network
call), and return the first case-insensitive name match. -/
def lookupChannelByName (listing : Except Unit (List Chan)) (name : List Char) :
    Except (List Char) (List Char) × List Effect :=
  let name := (trimHash name).map Char.toLower
  match listing with
  | .error _ => (.error ("failed to list channels".data), [.listChannels])
  | .ok chans =>
    match chans.find? (fun ch => equalFold ch.name name) with
    | some ch => (.ok ch.id, [.listChannels])
    | none =>
      (.error ("channel ".data ++ name ++
        " not found. Use slck channels list to see available channels".data),
        [.listChannels])

/-- `ResolveChannel` from channel_resolver.go: strip one leading hash, reject
empty input, return the token unchanged when it matches the channel-ID shape
(no network call), otherwise look the name up in the channel listing. -/
def ResolveChannel (listing : Except Unit (List Chan)) (channel : List Char) :
    Except (List Char) (List Char) × List Effect :=
  let channel := trimHash channel
  if channel = [] then (.error ("channel cannot be empty".data), [])
  else if IsChannelID channel then (.ok channel, [])
  else lookupChannelByName listing channel

/-- `UserResolver.Resolve` from the user resolver source: empty input returns
empty output with no lookup; a cache hit returns the cached name with no
lookup; otherwise one `GetUserInfo` lookup is issued - on failure the raw ID
is returned and the cache is left unchanged, on success the display name is
chosen by the source's fallback cascade and inserted into the cache.  The
third component counts the `GetUserInfo` lookups this call issued (0 or 1). -/
def Resolve (env : UserEnv) (cache : Cache) (userID : List Char) :
    List Char × Cache × Nat :=
  if userID = [] then (userID, cache, 0)
  else
    match lookupCache cache userID with
    | some name => (name, cache, 0)
    | none =>
      match env userID with
      | .error _ => (userID, cache, 1)
      | .ok user =>
        let name :=
          if user.displayName ≠ [] then user.displayName
          else if user.realName ≠ [] then user.realName
          else if user.name ≠ [] then user.name
          else userID
        (name, (userID, name) :: cache, 1)

/-- First non-empty string in the list, with a final fallback - the
specification's description of the display-name priority order. -/
def firstNonEmpty : List (List Char) → List Char → List Char
  | [], d => d
  | x :: xs, d => if x = [] then firstNonEmpty xs d else x

/-- The name `Resolve` computes for an ID, independent of cache state: empty
for empty input; the raw ID when the lookup fails; otherwise the first
non-empty of display name, real name, account name, falling back to the ID. -/
def resolveName (env : UserEnv) (id : List Char) : List Char :=
  if id = [] then []
  else
    match env id with
    | .error _ => id
    | .ok u => firstNonEmpty [u.displayName, u.realName, u.name] id

/-- A cache is consistent with the lookup environment when every entry holds
the name `Resolve` would compute for its key. -/
def consistentCache (env : UserEnv) (cache : Cache) : Prop :=
  ∀ k v, lookupCache cache k = some v → v = resolveName env k

/-- Run a sequence of sequential `Resolve` calls on one resolver instance,
threading the cache, and count the `GetUserInfo` lookups issued for `target`. -/
def lookupsFor (env : UserEnv) (target : List Char) : Cache → List (List Char) → Nat
  | _, [] => 0
  | cache, id :: rest =>
    let r := Resolve env cache id
    (if id = target then r.2.2 else 0) + lookupsFor env target r.2.1 rest

/-- A character the mention regex class `[A-Z0-9]` accepts. -/
def isUpperDigit (c : Char) : Bool := c.isUpper || c.isDigit

/-- Semantic model of matching the anchored mention pattern `<@(U[A-Z0-9]+)>`
at the head of the text (the regex in the user resolver source): on success,
returns the captured ID (the `U` and the maximal uppercase-alphanumeric run
after it, which must be non-empty and be followed by `>`) and the text after
the match. -/
def matchMention (s : List Char) : Option (List Char × List Char) :=
  match s with
  | '<' :: '@' :: 'U' :: rest =>
    let run := rest.takeWhile isUpperDigit
    let rem := rest.dropWhile isUpperDigit
    match run, rem with
    | [], _ => none
    | _ :: _, '>' :: tail => some ('U' :: run, tail)
    | _, _ => none
  | _ => none

/-- Fuelled left-to-right scan replacing each leftmost mention match with `@`
followed by `f` of the captured ID - the pure shape of
`ReplaceAllStringFunc`.  The fuel only bounds recursion depth; it is always
run with fuel equal to the text length, which suffices. -/
def mentionMapF (f : List Char → List Char) : Nat → List Char → List Char
  | 0, s => s
  | _ + 1, [] => []
  | fuel + 1, c :: cs =>
    match matchMention (c :: cs) with
    | some (id, tail) => '@' :: (f id ++ mentionMapF f fuel tail)
    | none => c :: mentionMapF f fuel cs

/-- Replace every mention occurrence in `s` by `@` followed by `f` of the
captured ID, leaving all other characters unchanged. -/
def mentionMap (f : List Char → List Char) (s : List Char) : List Char :=
  mentionMapF f s.length s

/-- Fuelled form of `ResolveMentions`, threading the resolver cache through
the successive `Resolve` calls exactly as the Go method does. -/
def ResolveMentionsF (env : UserEnv) : Nat → Cache → List Char → List Char × Cache
  | 0, cache, s => (s, cache)
  | _ + 1, cache, [] => ([], cache)
  | fuel + 1, cache, c :: cs =>
    match matchMention (c :: cs) with
    | some (id, tail) =>
      let r := Resolve env cache id
      let rest := ResolveMentionsF env fuel r.2.1 tail
      ('@' :: (r.1 ++ rest.1), rest.2)
    | none =>
      let rest := ResolveMentionsF env fuel cache cs
      (c :: rest.1, rest.2)

/-- `UserResolver.ResolveMentions` from the user resolver source: rewrite each
occurrence of the mention markup `<@U...>` into `@` followed by the resolved
display name of the captured ID, resolving through the shared cache. -/
def ResolveMentions (env : UserEnv) (cache : Cache) (text : List Char) :
    List Char × Cache :=
  ResolveMentionsF env text.length cache text

/-- True when the text contains no occurrence of the mention pattern. -/
def noMention : List Char → Bool
  | [] => true
  | c :: cs => (matchMention (c :: cs)).isNone && noMention cs

/-- Modelled from the spec: the body of `unescapeShellChars` is not under
`src` (only its call site in `runSend` and its unit tests are).  Per the
specification, each backslash immediately followed by an exclamation mark is
rewritten to a bare exclamation mark, and every other character - including
every other backslash sequence - is left unchanged. -/
def unescapeShellChars : List Char → List Char
  | [] => []
  | '\\' :: '!' :: rest => '!' :: unescapeShellChars rest
  | c :: rest => c :: unescapeShellChars rest

/-- True when the text contains no backslash immediately followed by an
exclamation mark. -/
def noBangEscape : List Char → Bool
  | [] => true
  | '\\' :: '!' :: _ => false
  | _ :: cs => noBangEscape cs

/-- Modelled from the spec: the body of `buildDefaultBlocks` is not under
`src` (only its call site in `runSend` and its unit test are).  Per the
specification it synthesizes a single "section" block whose text object has
the styled-markdown ("mrkdwn") type and the literal provided text. -/
def buildDefaultBlocks (text : List Char) : List Block :=
  [⟨"section".data, ⟨"mrkdwn".data, text⟩⟩]

/-- Split a string at its first dot, if any. -/
def splitAtDot : List Char → List Char × Option (List Char)
  | [] => ([], none)
  | '.' :: rest => ([], some rest)
  | c :: rest =>
    let r := splitAtDot rest
    (c :: r.1, r.2)

/-- Modelled from the spec: `validate.Timestamp` is not under `src`.  The
platform timestamp format is a non-empty run of digits optionally followed by
a dot and digits; anything else is an invalid timestamp. -/
def validateTimestamp (s : List Char) : Bool :=
  let p := splitAtDot s
  match p.2 with
  | none => !p.1.isEmpty && p.1.all Char.isDigit
  | some frac => !p.1.isEmpty && p.1.all Char.isDigit && frac.all Char.isDigit

/-- Modelled from the spec: `validate.NormalizeTimestamp` is not under `src`.
Normalization produces the canonical six-decimal representation by padding or
truncating the fractional part. -/
def normalizeTimestamp (s : List Char) : List Char :=
  let p := splitAtDot s
  let frac := (p.2.getD []) ++ ("000000".data)
  p.1 ++ '.' :: frac.take 6

/-- The `sendOptions` record from send.go. -/
structure sendOptions where
  threadTS : List Char
  blocksJSON : List Char
  blocksFile : List Char
  blocksStdin : Bool
  simple : Bool
  noUnfurl : Bool
  files : List (List Char)
  fileTitle : List Char
deriving DecidableEq, Repr

/-- The environment of external call results a `runSend` invocation sees.
Each field gives the (deterministic) answer the outside world would return
for the corresponding call. -/
structure Env where
  stdinText : Except Unit (List Char)
  readFile : List Char → Except Unit (List Char)
  parseBlocks : List Char → Option (List Block)
  listing : Except Unit (List Chan)
  stat : List Char → Option Nat
  openOK : List Char → Bool
  uploadURL : List Char → Nat → Except Unit (List Char × List Char)
  putBytes : List Char → Except Unit Unit
  completeUpload : List (List Char × List Char) → List Char → List Char →
    List Char → Except Unit Unit
  postMessage : List Char → List Char → List Char → Option (List Block) →
    Bool → Except Unit Unit

/-- The mutually-exclusive blocks-source count from send.go lines 107-116. -/
def blocksOptionsCount (opts : sendOptions) : Nat :=
  (if opts.blocksJSON ≠ [] then 1 else 0) +
  (if opts.blocksFile ≠ [] then 1 else 0) +
  (if opts.blocksStdin then 1 else 0)

/-- send.go lines 121-142: when the text argument is the sentinel `-`, read
the message text from stdin; combining this with --blocks-stdin is an error. -/
def readTextArg (env : Env) (text : List Char) (opts : sendOptions) :
    Except (List Char) (List Char) × List Effect :=
  if text = ['-'] then
    if opts.blocksStdin then
      (.error ("cannot use - for text and --blocks-stdin together; stdin can only be used for one".data), [])
    else
      match env.stdinText with
      | .error _ => (.error ("reading stdin".data), [.readStdin])
      | .ok s => (.ok s, [.readStdin])
  else (.ok text, [])

/-- send.go lines 147-174: resolve the active blocks source to a string:
inline JSON directly, or read the blocks file, or read stdin; empty when no
source is set. -/
def readBlocksSource (env : Env) (opts : sendOptions) :
    Except (List Char) (List Char) × List Effect :=
  if opts.blocksJSON ≠ [] then (.ok opts.blocksJSON, [])
  else if opts.blocksFile ≠ [] then
    match env.readFile opts.blocksFile with
    | .error _ => (.error ("reading blocks file".data), [.readBlocksFile opts.blocksFile])
    | .ok data => (.ok data, [.readBlocksFile opts.blocksFile])
  else if opts.blocksStdin then
    match env.stdinText with
    | .error _ => (.error ("reading blocks from stdin".data), [.readStdin])
    | .ok s => (.ok s, [.readStdin])
  else (.ok [], [])

/-- send.go lines 202-222: decode the blocks source if one was given
(malformed JSON is an error), otherwise default to a single styled block when
plain-text mode was not requested and the text is non-empty, then issue the
one `SendMessage` call. -/
def composeAndPost (env : Env) (channelID text blocksSource : List Char)
    (opts : sendOptions) : Except (List Char) Unit × List Effect :=
  let blocksR : Except (List Char) (Option (List Block)) :=
    if blocksSource ≠ [] then
      match env.parseBlocks blocksSource with
      | none => .error ("invalid blocks JSON".data)
      | some bs => .ok (some bs)
    else if ¬ opts.simple ∧ text ≠ [] then .ok (some (buildDefaultBlocks text))
    else .ok none
  match blocksR with
  | .error e => (.error e, [])
  | .ok blocks =>
    match env.postMessage channelID text opts.threadTS blocks (!opts.noUnfurl) with
    | .error _ =>
      (.error ("send message".data),
        [.sendMessage channelID text opts.threadTS blocks (!opts.noUnfurl)])
    | .ok _ =>
      (.ok (), [.sendMessage channelID text opts.threadTS blocks (!opts.noUnfurl)])

/-- Model of `filepath.Base` for the paths this pipeline sees: the last
slash-separated component, ignoring trailing slashes. -/
def baseName (p : List Char) : List Char :=
  ((p.reverse.dropWhile (· == '/')).takeWhile (· != '/')).reverse

/-- The per-file loop of `uploadFiles` (send.go lines 228-264), strictly
sequential: stat the local path (aborting the whole batch on failure), request
an upload slot, open the file, stream its bytes, and accumulate the platform
file handle with its resolved title. -/
def uploadLoop (env : Env) (fileTitle : List Char) :
    List (List Char) → List (List Char × List Char) → List Effect →
    Except (List Char) (List (List Char × List Char)) × List Effect
  | [], acc, tr => (.ok acc, tr)
  | fp :: rest, acc, tr =>
    match env.stat fp with
    | none => (.error ("cannot access file ".data ++ fp), tr)
    | some size =>
      let filename := baseName fp
      let tr := tr ++ [.getUploadURL filename size]
      match env.uploadURL filename size with
      | .error _ => (.error ("get upload URL".data), tr)
      | .ok (url, fid) =>
        if env.openOK fp then
          let tr := tr ++ [.uploadBytes url]
          match env.putBytes url with
          | .error _ => (.error ("upload file".data), tr)
          | .ok _ =>
            let title := if fileTitle = [] then filename else fileTitle
            uploadLoop env fileTitle rest (acc ++ [(fid, title)]) tr
        else (.error ("opening file ".data ++ fp), tr)

/-- `uploadFiles` from send.go: run the per-file loop, then issue the single
finalize/share call carrying all accumulated file handles. -/
def uploadFiles (env : Env) (channelID text : List Char) (opts : sendOptions) :
    Except (List Char) Unit × List Effect :=
  match uploadLoop env opts.fileTitle opts.files [] [] with
  | (.error e, tr) => (.error e, tr)
  | (.ok files, tr) =>
    let tr := tr ++ [.completeUpload files channelID]
    match env.completeUpload files channelID opts.threadTS text with
    | .error _ => (.error ("complete upload".data), tr)
    | .ok _ => (.ok (), tr)

/-- send.go lines 121-222 after option validation: read the text argument,
unescape shell escapes, resolve the blocks source, check the message is
non-empty, resolve the channel, then either drive the file pipeline or
compose and post the message. -/
def sendCore (env : Env) (channel text : List Char) (opts : sendOptions) :
    Except (List Char) Unit × List Effect :=
  match readTextArg env text opts with
  | (.error e, tr) => (.error e, tr)
  | (.ok text0, tr1) =>
    let text1 := unescapeShellChars text0
    match readBlocksSource env opts with
    | (.error e, tr2) => (.error e, tr1 ++ tr2)
    | (.ok blocksSource, tr2) =>
      let tr := tr1 ++ tr2
      if text1 = [] ∧ blocksSource = [] ∧ opts.files = [] then
        (.error ("message text cannot be empty (or provide blocks via --blocks, --blocks-file, --blocks-stdin, or files via --file)".data), tr)
      else
        match ResolveChannel env.listing channel with
        | (.error e, tr3) => (.error e, tr ++ tr3)
        | (.ok channelID, tr3) =>
          let tr := tr ++ tr3
          if opts.files ≠ [] then
            let r := uploadFiles env channelID text1 opts
            (r.1, tr ++ r.2)
          else
            let r := composeAndPost env channelID text1 blocksSource opts
            (r.1, tr ++ r.2)

/-- `runSend` from send.go: validate and normalize the thread timestamp,
reject conflicting blocks sources, then run the rest of the pipeline. -/
def runSend (env : Env) (channel text : List Char) (opts : sendOptions) :
    Except (List Char) Unit × List Effect :=
  if opts.threadTS ≠ [] ∧ validateTimestamp opts.threadTS = false then
    (.error ("invalid timestamp".data), [])
  else
    let opts1 :=
      if opts.threadTS = [] then opts
      else { opts with threadTS := normalizeTimestamp opts.threadTS }
    if 1 < blocksOptionsCount opts1 then
      (.error ("only one of --blocks, --blocks-file, or --blocks-stdin can be specified".data), [])
    else
      sendCore env channel text opts1

/-- An inert environment for concrete runs: every external call fails or
returns an empty answer, except message posting, which succeeds. -/
def dummyEnv : Env where
  stdinText := .ok []
  readFile := fun _ => .error ()
  parseBlocks := fun _ => none
  listing := .ok []
  stat := fun _ => none
  openOK := fun _ => false
  uploadURL := fun _ _ => .error ()
  putBytes := fun _ => .error ()
  completeUpload := fun _ _ _ _ => .error ()
  postMessage := fun _ _ _ _ _ => .ok ()

/-- Environment for concrete file-upload runs: `a.txt` exists with size 3 and
uploads fine; every other path fails to stat. -/
def envC2 : Env :=
  { dummyEnv with
    stat := fun p => if p = "a.txt".data then some 3 else none
    openOK := fun _ => true
    uploadURL := fun _ _ => .ok ("u".data, "F1".data)
    putBytes := fun _ => .ok () }

/-- Send options requesting the upload of `a.txt` then `b.txt`. -/
def optsC2 : sendOptions :=
  ⟨[], [], [], false, false, false, ["a.txt".data, "b.txt".data], []⟩

/-- Default send options: no thread, no blocks source, no files. -/
def optsC7 : sendOptions := ⟨[], [], [], false, false, false, [], []⟩

/-- Send options with an invalid thread timestamp and two blocks sources set
(inline JSON and blocks-from-stdin). -/
def optsC8 : sendOptions := ⟨"xyz".data, "[]".data, [], true, false, false, [], []⟩

/-- Send options with two blocks sources set (inline JSON and a blocks file)
and no thread timestamp. -/
def optsC8w : sendOptions :=
  ⟨[], "[]".data, "blocks.json".data, false, false, false, [], []⟩

/-- A user record whose every name field is "alice". -/
def aliceUser : User := ⟨"alice".data, "alice".data, "alice".data⟩

/-- A user record whose every name field is "bob". -/
def bobUser : User := ⟨"bob".data, "bob".data, "bob".data⟩

/-- A user-info backend knowing U001 (alice) and U002 (bob). -/
def envUsers : UserEnv := fun id =>
  if id = "U001".data then .ok aliceUser
  else if id = "U002".data then .ok bobUser
  else .error ()

/-- A user-info backend on which every lookup fails. -/
def envFailU : UserEnv := fun _ => .error ()

/-! ## Theorems -/

/-- The suffix loop accepts exactly the uppercase-alphanumeric strings, and
reports a digit exactly when the running flag was set or a digit occurs. -/
theorem idSuffixCheck_spec (l : List Char) (b : Bool) :
    idSuffixCheck l b = true ↔
      ((∀ c ∈ l, c.isUpper = true ∨ c.isDigit = true) ∧
        (b = true ∨ ∃ c ∈ l, c.isDigit = true)) := by
  induction l generalizing b with
  | nil => simp [idSuffixCheck]
  | cons c cs ih =>
    by_cases hd : c.isDigit = true
    · simp [idSuffixCheck, hd, ih]
    · by_cases hu : c.isUpper = true
      · simp [idSuffixCheck, hd, hu, ih]
      · simp [idSuffixCheck, hd, hu]

/-- C1: for every string, `IsChannelID` returns true iff the string has
length at least 2, its first character is C, G or D, every remaining
character is an uppercase letter or a digit, and at least one remaining
character is a digit; in particular "GENERAL" and "C123abc" are rejected. -/
theorem isChannelID_spec :
    (IsChannelID [] = false) ∧
    (∀ (p : Char) (rest : List Char),
      IsChannelID (p :: rest) = true ↔
        (2 ≤ (p :: rest).length ∧ (p = 'C' ∨ p = 'G' ∨ p = 'D') ∧
          (∀ c ∈ rest, c.isUpper = true ∨ c.isDigit = true) ∧
          (∃ c ∈ rest, c.isDigit = true))) ∧
    IsChannelID ("GENERAL".data) = false ∧
    IsChannelID ("C123abc".data) = false := by
  refine ⟨by decide, fun p rest => ?_, by decide, by decide⟩
  cases rest with
  | nil => simp [IsChannelID]
  | cons q rs =>
    have h2 : 2 ≤ (p :: q :: rs).length := by simp
    by_cases hp : p = 'C' ∨ p = 'G' ∨ p = 'D'
    · have hpb : (p == 'C' || p == 'G' || p == 'D') = true := by
        rcases hp with h | h | h <;> simp [h]
      simp only [IsChannelID, List.length_cons]
      rw [if_neg (by omega)]
      simp [hpb, idSuffixCheck_spec, h2, hp]
    · have hpb : (p == 'C' || p == 'G' || p == 'D') = false := by
        push_neg at hp
        simp [hp.1, hp.2.1, hp.2.2]
      simp only [IsChannelID, List.length_cons]
      rw [if_neg (by omega)]
      simp [hpb, hp]

/-- Helper: the channel-ID fast path of `ResolveChannel`. -/
theorem resolveChannel_shape_aux (listing : Except Unit (List Chan))
    (channel : List Char) (h1 : trimHash channel ≠ [])
    (h2 : IsChannelID (trimHash channel) = true) :
    ResolveChannel listing channel = (.ok (trimHash channel), []) := by
  simp [ResolveChannel, h1, h2]

/-- C4: a token that, after stripping one leading hash, is non-empty and
matches the channel-ID shape is returned unchanged by `ResolveChannel`, with
no channel-listing call (empty effect trace). -/
theorem resolveChannel_id_shape (listing : Except Unit (List Chan))
    (channel : List Char) (h1 : trimHash channel ≠ [])
    (h2 : IsChannelID (trimHash channel) = true) :
    ResolveChannel listing channel = (.ok (trimHash channel), []) :=
  resolveChannel_shape_aux listing channel h1 h2

/-- Witness for C4 at the concrete token "#C123". -/
theorem resolveChannel_id_shape_witness :
    trimHash ("#C123".data) ≠ [] ∧ IsChannelID (trimHash ("#C123".data)) = true ∧
    ResolveChannel (Except.ok []) ("#C123".data) =
      (.ok (trimHash ("#C123".data)), []) :=
  ⟨by decide, by decide,
    resolveChannel_id_shape (Except.ok []) ("#C123".data) (by decide) (by decide)⟩

/-- `Resolve` on an ID other than `target` does not change what the cache
holds for `target`. -/
theorem lookupCache_resolve_other (env : UserEnv) (cache : Cache)
    (id target : List Char) (h : id ≠ target) :
    lookupCache (Resolve env cache id).2.1 target = lookupCache cache target := by
  by_cases h0 : id = []
  · simp [Resolve, h0]
  · cases hl : lookupCache cache id with
    | some v => simp [Resolve, h0, hl]
    | none =>
      cases he : env id with
      | error e => simp [Resolve, h0, hl, he]
      | ok u => simp [Resolve, h0, hl, he, lookupCache, h]

/-- Once the cache holds an entry for `target`, no later sequential `Resolve`
call issues a lookup for `target`. -/
theorem lookupsFor_cached (env : UserEnv) (target : List Char) :
    ∀ (ids : List (List Char)) (cache : Cache),
      (lookupCache cache target).isSome = true →
      lookupsFor env target cache ids = 0 := by
  intro ids
  induction ids with
  | nil => intro cache _; simp [lookupsFor]
  | cons id rest ih =>
    intro cache hc
    simp only [lookupsFor]
    by_cases hid : id = target
    · subst hid
      obtain ⟨v, hv⟩ := Option.isSome_iff_exists.mp hc
      by_cases h0 : id = []
      · simp only [Resolve, h0, if_pos rfl]
        simpa [h0] using ih cache hc
      · simp only [Resolve, h0, if_neg h0, hv]
        simpa using ih cache hc
    · rw [if_neg hid]
      have he := lookupCache_resolve_other env cache id target hid
      simpa using ih _ (by rw [he]; exact hc)

/-- When the lookup for `target` succeeds, any sequence of sequential
`Resolve` calls issues at most one lookup for `target` (none at all once it
is cached). -/
theorem lookupsFor_bound (env : UserEnv) (target : List Char) (u : User)
    (h : env target = Except.ok u) :
    ∀ (ids : List (List Char)) (cache : Cache),
      lookupsFor env target cache ids ≤
        (if (lookupCache cache target).isSome then 0 else 1) := by
  intro ids
  induction ids with
  | nil => intro cache; split <;> simp [lookupsFor]
  | cons id rest ih =>
    intro cache
    simp only [lookupsFor]
    by_cases hid : id = target
    · subst hid
      cases hl : lookupCache cache id with
      | some v =>
        by_cases h0 : id = []
        · subst h0
          simp only [Resolve, if_pos rfl]
          simpa [hl] using ih cache
        · simp only [Resolve, if_neg h0, hl]
          simpa [hl] using ih cache
      | none =>
        by_cases h0 : id = []
        · subst h0
          simp only [Resolve, if_pos rfl]
          simpa [hl] using ih cache
        · have hz : ∀ v : List Char,
              lookupsFor env id ((id, v) :: cache) rest = 0 :=
            fun v => lookupsFor_cached env id rest ((id, v) :: cache)
              (by simp [lookupCache])
          simp [Resolve, if_neg h0, hl, h, hz]
    · rw [if_neg hid]
      have he := lookupCache_resolve_other env cache id target hid
      have := ih (Resolve env cache id).2.1
      rw [he] at this
      simpa using this

/-- Counterexample to C3 as stated: against a backend on which every lookup
fails, two sequential `Resolve` calls for the same ID issue two underlying
lookups, not at most one - a failed lookup is not cached, so the second call
looks the ID up again. -/
theorem resolve_cache_counterexample :
    lookupsFor envFailU ("U1".data) [] ["U1".data, "U1".data] = 2 := by decide

/-- C3 amended: for an ID whose user-info lookup succeeds, any sequence of
sequential `Resolve` calls on one resolver instance (starting from the empty
cache) issues at most one underlying lookup for that ID; and whenever the
cache already holds a value for an ID, `Resolve` returns that cached value
with no lookup and no cache change. -/
theorem resolve_cache_spec (env : UserEnv) (target : List Char) (u : User)
    (ids : List (List Char)) (h : env target = Except.ok u) :
    lookupsFor env target [] ids ≤ 1 ∧
    (∀ (cache : Cache) (name : List Char), target ≠ [] →
      lookupCache cache target = some name →
      Resolve env cache target = (name, cache, 0)) := by
  constructor
  · simpa [lookupCache] using lookupsFor_bound env target u h ids []
  · intro cache name h0 hc
    simp [Resolve, h0, hc]

/-- Witness for the amended C3 at a concrete backend and call sequence. -/
theorem resolve_cache_spec_witness :
    lookupsFor envUsers ("U001".data) []
      ["U001".data, "U001".data, "U001".data] ≤ 1 ∧
    Resolve envUsers [("U001".data, "alice".data)] ("U001".data) =
      ("alice".data, [("U001".data, "alice".data)], 0) :=
  ⟨(resolve_cache_spec envUsers ("U001".data) aliceUser
      ["U001".data, "U001".data, "U001".data] rfl).1,
   (resolve_cache_spec envUsers ("U001".data) aliceUser
      ["U001".data, "U001".data, "U001".data] rfl).2
      [("U001".data, "alice".data)] ("alice".data) (by decide) (by decide)⟩

/-- C5: `Resolve` is total (it always returns a string, never an error):
empty input returns empty output with no lookup and no cache change; for a
non-empty, not-yet-cached ID, a failed lookup returns the raw ID unchanged,
and a successful lookup returns the first non-empty of profile display name,
real name, account name, falling back to the raw ID. -/
theorem resolve_fallback_spec (env : UserEnv) (cache : Cache) (id : List Char) :
    Resolve env cache [] = ([], cache, 0) ∧
    (id ≠ [] → lookupCache cache id = none →
      ((env id = Except.error () → Resolve env cache id = (id, cache, 1)) ∧
       (∀ u, env id = Except.ok u →
          Resolve env cache id =
            (firstNonEmpty [u.displayName, u.realName, u.name] id,
              (id, firstNonEmpty [u.displayName, u.realName, u.name] id) :: cache,
              1)))) := by
  refine ⟨by simp [Resolve], fun h0 hc => ⟨fun he => by simp [Resolve, h0, hc, he], ?_⟩⟩
  intro u hu
  simp only [Resolve, if_neg h0, hc, hu]
  simp only [firstNonEmpty, ne_eq, ite_not]

/-- Witness for C5: a failing lookup echoes the ID, a successful lookup picks
the display name. -/
theorem resolve_fallback_spec_witness :
    Resolve envUsers [] ("U999".data) = ("U999".data, [], 1) ∧
    Resolve envUsers [] ("U001".data) =
      (firstNonEmpty [aliceUser.displayName, aliceUser.realName, aliceUser.name]
        ("U001".data),
       ("U001".data,
        firstNonEmpty [aliceUser.displayName, aliceUser.realName, aliceUser.name]
          ("U001".data)) :: [], 1) :=
  ⟨((resolve_fallback_spec envUsers [] ("U999".data)).2 (by decide) (by decide)).1
      rfl,
   ((resolve_fallback_spec envUsers [] ("U001".data)).2 (by decide) (by decide)).2
      aliceUser rfl⟩

/-- C10: when the lookup fails for a non-empty, not-yet-cached ID, `Resolve`
returns the input ID with the cache unchanged (the failed ID is not
inserted), so an immediately following `Resolve` for the same ID performs the
underlying lookup again (lookup count 1 again). -/
theorem resolve_error_not_cached (env : UserEnv) (cache : Cache) (id : List Char)
    (h0 : id ≠ []) (hc : lookupCache cache id = none)
    (he : env id = Except.error ()) :
    Resolve env cache id = (id, cache, 1) ∧
    Resolve env (Resolve env cache id).2.1 id = (id, cache, 1) := by
  have hr : Resolve env cache id = (id, cache, 1) := by simp [Resolve, h0, hc, he]
  exact ⟨hr, by rw [hr]; exact hr⟩

/-- Witness for C10 at a concrete always-failing backend. -/
theorem resolve_error_not_cached_witness :
    Resolve envFailU [] ("U9".data) = ("U9".data, [], 1) ∧
    Resolve envFailU (Resolve envFailU [] ("U9".data)).2.1 ("U9".data) =
      ("U9".data, [], 1) :=
  resolve_error_not_cached envFailU [] ("U9".data) (by decide) (by decide) rfl

/-- Dropping a prefix never lengthens a list. -/
theorem dropWhile_length_le (p : Char → Bool) (l : List Char) :
    (l.dropWhile p).length ≤ l.length := by
  induction l with
  | nil => simp
  | cons a l ih =>
    by_cases h : p a
    · simp only [List.dropWhile_cons, h, if_pos]
      exact Nat.le_succ_of_le ih
    · simp [List.dropWhile_cons, h]

/-- A successful mention match consumes at least one character: the remainder
is strictly shorter than the input. -/
theorem matchMention_some_length (s id tail : List Char)
    (h : matchMention s = some (id, tail)) : tail.length < s.length := by
  rw [matchMention.eq_def] at h
  split at h
  · rename_i rest
    simp only [] at h
    split at h
    · exact absurd h (by simp)
    · rename_i run hrun htail
      obtain ⟨rfl, rfl⟩ : 'U' :: rest.takeWhile isUpperDigit = id ∧ _ = tail := by
        simpa using h
      rename_i tl
      have hd : (rest.dropWhile isUpperDigit).length ≤ rest.length :=
        dropWhile_length_le _ _
      rw [htail] at hd
      simp only [List.length_cons] at hd ⊢
      omega
    · exact absurd h (by simp)
  · exact absurd h (by simp)

/-- Splitting an uppercase-alphanumeric run followed by a closing angle
bracket: `takeWhile` keeps exactly the run and `dropWhile` stops at the
bracket. -/
theorem takeWhile_upper (id rest : List Char)
    (h : ∀ c ∈ id, isUpperDigit c = true) :
    (id ++ '>' :: rest).takeWhile isUpperDigit = id ∧
    (id ++ '>' :: rest).dropWhile isUpperDigit = '>' :: rest := by
  induction id with
  | nil =>
    simp [List.takeWhile_cons, List.dropWhile_cons,
      (by decide : isUpperDigit '>' = false)]
  | cons a as ih =>
    have ha : isUpperDigit a = true := h a (List.mem_cons_self a as)
    have ih2 := ih (fun c hc => h c (List.mem_cons_of_mem a hc))
    simp [List.takeWhile_cons, List.dropWhile_cons, ha, ih2.1, ih2.2]

/-- The mention pattern matches at the head of
`<@U` + run + `>` + rest, capturing `U` + run. -/
theorem matchMention_mention (id rest : List Char) (h1 : id ≠ [])
    (h2 : ∀ c ∈ id, isUpperDigit c = true) :
    matchMention ('<' :: '@' :: 'U' :: (id ++ '>' :: rest)) =
      some ('U' :: id, rest) := by
  obtain ⟨a, as, rfl⟩ : ∃ a as, id = a :: as := by
    cases id with
    | nil => exact absurd rfl h1
    | cons a as => exact ⟨a, as, rfl⟩
  have ht1 := (takeWhile_upper (a :: as) rest h2).1
  have ht2 := (takeWhile_upper (a :: as) rest h2).2
  simp only [List.cons_append] at ht1 ht2
  simp [matchMention, ht1, ht2]

/-- Running the fuelled mention scan with any fuel at least the text length
gives the same answer as running it with fuel exactly the text length. -/
theorem mentionMapF_eq (f : List Char → List Char) :
    ∀ (n : Nat) (s : List Char), s.length ≤ n →
      mentionMapF f n s = mentionMap f s := by
  intro n
  induction n using Nat.strong_induction_on with
  | _ n ih =>
    intro s hs
    cases s with
    | nil => cases n <;> simp [mentionMapF, mentionMap]
    | cons c cs =>
      cases n with
      | zero => simp at hs
      | succ n =>
        have hcs : cs.length ≤ n := by simpa using hs
        simp only [mentionMap, List.length_cons]
        cases hm : matchMention (c :: cs) with
        | none =>
          simp only [mentionMapF, hm]
          rw [ih n (by omega) cs hcs, ih cs.length (by omega) cs le_rfl]
        | some p =>
          obtain ⟨id, tail⟩ := p
          have hlt := matchMention_some_length _ _ _ hm
          simp only [List.length_cons] at hlt
          simp only [mentionMapF, hm]
          rw [ih n (by omega) tail (by omega),
            ih cs.length (by omega) tail (by omega)]

/-- Fuel irrelevance for the stateful mention rewriter. -/
theorem ResolveMentionsF_eq (env : UserEnv) :
    ∀ (n : Nat) (cache : Cache) (s : List Char), s.length ≤ n →
      ResolveMentionsF env n cache s = ResolveMentions env cache s := by
  intro n
  induction n using Nat.strong_induction_on with
  | _ n ih =>
    intro cache s hs
    cases s with
    | nil => cases n <;> simp [ResolveMentionsF, ResolveMentions]
    | cons c cs =>
      cases n with
      | zero => simp at hs
      | succ n =>
        have hcs : cs.length ≤ n := by simpa using hs
        simp only [ResolveMentions, List.length_cons]
        cases hm : matchMention (c :: cs) with
        | none =>
          simp only [ResolveMentionsF, hm]
          rw [ih n (by omega) cache cs hcs, ih cs.length (by omega) cache cs le_rfl]
        | some p =>
          obtain ⟨id, tail⟩ := p
          have hlt := matchMention_some_length _ _ _ hm
          simp only [List.length_cons] at hlt
          simp only [ResolveMentionsF, hm]
          rw [ih n (by omega) _ tail (by omega),
            ih cs.length (by omega) _ tail (by omega)]

/-- On a consistent cache, `Resolve` returns exactly `resolveName` and keeps
the cache consistent. -/
theorem Resolve_consistent (env : UserEnv) (cache : Cache) (id : List Char)
    (h : consistentCache env cache) :
    (Resolve env cache id).1 = resolveName env id ∧
    consistentCache env (Resolve env cache id).2.1 := by
  by_cases h0 : id = []
  · subst h0
    exact ⟨by simp [Resolve, resolveName], by simpa [Resolve] using h⟩
  · cases hl : lookupCache cache id with
    | some v =>
      exact ⟨by simp [Resolve, h0, hl, h id v hl], by simpa [Resolve, h0, hl] using h⟩
    | none =>
      cases he : env id with
      | error e =>
        refine ⟨by simp [Resolve, h0, hl, he, resolveName], ?_⟩
        simpa [Resolve, h0, hl, he] using h
      | ok u =>
        have hname : (if u.displayName ≠ [] then u.displayName
            else if u.realName ≠ [] then u.realName
            else if u.name ≠ [] then u.name else id) = resolveName env id := by
          simp only [resolveName, if_neg h0, he]
          simp only [firstNonEmpty, ne_eq, ite_not]
        constructor
        · simp only [Resolve, if_neg h0, hl, he]
          exact hname
        · simp only [Resolve, if_neg h0, hl, he]
          intro k v hkv
          by_cases hk : id = k
          · subst hk
            simp [lookupCache] at hkv
            rw [← hkv]
            simpa [ne_eq, ite_not] using hname
          · simp only [lookupCache, if_neg hk] at hkv
            exact h k v hkv

/-- On a consistent cache, the stateful mention rewriter computes the pure
mention map of `resolveName`, and leaves the cache consistent. -/
theorem ResolveMentions_pure (env : UserEnv) :
    ∀ (n : Nat) (s : List Char) (cache : Cache), s.length ≤ n →
      consistentCache env cache →
      (ResolveMentions env cache s).1 = mentionMap (resolveName env) s ∧
      consistentCache env (ResolveMentions env cache s).2 := by
  intro n
  induction n using Nat.strong_induction_on with
  | _ n ih =>
    intro s cache hs hc
    cases s with
    | nil =>
      exact ⟨by simp [ResolveMentions, ResolveMentionsF, mentionMap, mentionMapF],
        by simpa [ResolveMentions, ResolveMentionsF] using hc⟩
    | cons c cs =>
      cases n with
      | zero => simp at hs
      | succ n =>
        have hcs : cs.length ≤ n := by simpa using hs
        cases hm : matchMention (c :: cs) with
        | none =>
          have hL : ResolveMentions env cache (c :: cs) =
              (c :: (ResolveMentions env cache cs).1,
                (ResolveMentions env cache cs).2) := by
            simp only [ResolveMentions, List.length_cons, ResolveMentionsF, hm]
          have hM : mentionMap (resolveName env) (c :: cs) =
              c :: mentionMap (resolveName env) cs := by
            simp only [mentionMap, List.length_cons, mentionMapF, hm]
          have hrec := ih n (by omega) cs cache hcs hc
          rw [hL, hM]
          exact ⟨by simp [hrec.1], by simpa using hrec.2⟩
        | some p =>
          obtain ⟨id, tail⟩ := p
          have hlt := matchMention_some_length _ _ _ hm
          simp only [List.length_cons] at hlt
          have hr := Resolve_consistent env cache id hc
          have hL : ResolveMentions env cache (c :: cs) =
              ('@' :: ((Resolve env cache id).1 ++
                  (ResolveMentions env (Resolve env cache id).2.1 tail).1),
                (ResolveMentions env (Resolve env cache id).2.1 tail).2) := by
            simp only [ResolveMentions, List.length_cons, ResolveMentionsF, hm]
            rw [ResolveMentionsF_eq env cs.length _ tail (by omega),
              ResolveMentionsF_eq env tail.length _ tail le_rfl]
          have hM : mentionMap (resolveName env) (c :: cs) =
              '@' :: (resolveName env id ++ mentionMap (resolveName env) tail) := by
            simp only [mentionMap, List.length_cons, mentionMapF, hm]
            rw [mentionMapF_eq _ cs.length tail (by omega),
              mentionMapF_eq _ tail.length tail le_rfl]
          have hrec := ih n (by omega) tail (Resolve env cache id).2.1
            (by omega) hr.2
          rw [hL, hM]
          exact ⟨by simp [hr.1, hrec.1], by simpa using hrec.2⟩

/-- Mention-free text maps to itself. -/
theorem mentionMap_noMention (f : List Char → List Char) :
    ∀ s : List Char, noMention s = true → mentionMap f s = s := by
  intro s
  induction s with
  | nil => intro _; rfl
  | cons c cs ih =>
    intro h
    simp only [noMention, Bool.and_eq_true, Option.isNone_iff_eq_none] at h
    simp only [mentionMap, List.length_cons, mentionMapF, h.1]
    have := ih h.2
    simp only [mentionMap] at this
    rw [this]

/-- C6: `ResolveMentions` (started on a fresh resolver) leaves mention-free
text unchanged, rewrites each leading occurrence of the mention markup
`<@U...>` (U followed by a non-empty uppercase-alphanumeric run, then `>`)
into `@` followed by the resolved display name of the captured ID while
processing the remainder independently, copies any character that does not
start a mention occurrence, and resolves an unresolvable ID to the raw ID
itself (so such a mention becomes `@` followed by the raw ID). -/
theorem resolveMentions_spec (env : UserEnv) :
    (∀ s : List Char, noMention s = true → (ResolveMentions env [] s).1 = s) ∧
    (∀ id rest : List Char, id ≠ [] → (∀ c ∈ id, isUpperDigit c = true) →
      (ResolveMentions env [] ('<' :: '@' :: 'U' :: (id ++ '>' :: rest))).1 =
        '@' :: (resolveName env ('U' :: id) ++ (ResolveMentions env [] rest).1)) ∧
    (∀ (c : Char) (cs : List Char), matchMention (c :: cs) = none →
      (ResolveMentions env [] (c :: cs)).1 = c :: (ResolveMentions env [] cs).1) ∧
    (∀ id : List Char, id ≠ [] → env id = Except.error () →
      resolveName env id = id) := by
  have hempty : consistentCache env [] := fun k v hkv => by simp [lookupCache] at hkv
  have hpure : ∀ s : List Char,
      (ResolveMentions env [] s).1 = mentionMap (resolveName env) s :=
    fun s => (ResolveMentions_pure env s.length s [] le_rfl hempty).1
  refine ⟨fun s hs => ?_, fun id rest h1 h2 => ?_, fun c cs hm => ?_,
    fun id h0 he => ?_⟩
  · rw [hpure]
    exact mentionMap_noMention _ s hs
  · rw [hpure, hpure]
    have hm := matchMention_mention id rest h1 h2
    simp only [mentionMap, List.length_cons, mentionMapF, hm]
    rw [mentionMapF_eq _ _ rest (by simp; omega),
      mentionMapF_eq _ rest.length rest le_rfl]
  · rw [hpure, hpure]
    simp only [mentionMap, List.length_cons, mentionMapF, hm]
  · simp [resolveName, h0, he]

/-- Witness for C6: one concrete mention is rewritten through the resolver,
and mention-free text is returned unchanged. -/
theorem resolveMentions_spec_witness :
    (ResolveMentions envUsers [] ('<' :: '@' :: 'U' :: ("001".data ++ '>' :: []))).1 =
      '@' :: (resolveName envUsers ('U' :: "001".data) ++
        (ResolveMentions envUsers [] []).1) ∧
    (ResolveMentions envUsers [] ("hey there".data)).1 = "hey there".data :=
  ⟨(resolveMentions_spec envUsers).2.1 ("001".data) [] (by decide) (by decide),
   (resolveMentions_spec envUsers).1 ("hey there".data) (by decide)⟩

/-- Characters that do not begin a backslash-bang pair are copied verbatim. -/
theorem unescape_cons (c : Char) (r : List Char)
    (h : ¬ (c = '\\' ∧ r.head? = some '!')) :
    unescapeShellChars (c :: r) = c :: unescapeShellChars r := by
  rw [unescapeShellChars.eq_def]
  split
  · rename_i heq
    simp at heq
  · rename_i rest heq
    injection heq with h1 h2
    exact absurd ⟨h1, by rw [h2]; rfl⟩ h
  · rename_i c' rest hne heq
    injection heq with h1 h2
    subst h1
    subst h2
    rfl

/-- A cons that does not begin a backslash-bang pair does not affect the
backslash-bang-freedom test. -/
theorem noBangEscape_cons (c : Char) (cs : List Char)
    (h : ¬ (c = '\\' ∧ cs.head? = some '!')) :
    noBangEscape (c :: cs) = noBangEscape cs := by
  rw [noBangEscape.eq_def]
  split
  · rename_i heq
    simp at heq
  · rename_i rest heq
    injection heq with h1 h2
    exact absurd ⟨h1, by rw [h2]; rfl⟩ h
  · rename_i c' rest hne heq
    injection heq with h1 h2
    subst h1
    subst h2
    rfl

/-- C9: the shell-unescaping step rewrites each backslash immediately
followed by an exclamation mark to a bare exclamation mark and leaves every
other character - including every other backslash sequence, such as a
backslash before n or a trailing backslash - unchanged. -/
theorem unescapeShellChars_spec :
    (∀ s : List Char, noBangEscape s = true → unescapeShellChars s = s) ∧
    (∀ r : List Char,
      unescapeShellChars ('\\' :: '!' :: r) = '!' :: unescapeShellChars r) ∧
    (∀ (c : Char) (r : List Char), ¬ (c = '\\' ∧ r.head? = some '!') →
      unescapeShellChars (c :: r) = c :: unescapeShellChars r) ∧
    unescapeShellChars ("Hello\\! World\\!".data) = "Hello! World!".data ∧
    unescapeShellChars ("Hello\\nWorld".data) = "Hello\\nWorld".data ∧
    unescapeShellChars ("Hello\\".data) = "Hello\\".data := by
  have key : ∀ (n : Nat) (s : List Char), s.length ≤ n → noBangEscape s = true →
      unescapeShellChars s = s := by
    intro n
    induction n with
    | zero =>
      intro s hs _
      cases s with
      | nil => rfl
      | cons a l => simp at hs
    | succ n ih =>
      intro s hs hb
      cases s with
      | nil => rfl
      | cons c cs =>
        by_cases hc : c = '\\' ∧ cs.head? = some '!'
        · exfalso
          obtain ⟨rfl, hh⟩ := hc
          cases cs with
          | nil => simp at hh
          | cons d ds =>
            simp only [List.head?, Option.some.injEq] at hh
            subst hh
            simp [noBangEscape] at hb
        · rw [unescape_cons c cs hc]
          rw [noBangEscape_cons c cs hc] at hb
          rw [ih cs (by simp at hs; omega) hb]
  exact ⟨fun s => key s.length s le_rfl, fun r => rfl,
    fun c r => unescape_cons c r, by decide, by decide, by decide⟩

/-- Witness for C9: the characterization applied at concrete inputs, with
both side conditions discharged. -/
theorem unescapeShellChars_spec_witness :
    unescapeShellChars ("abc".data) = "abc".data ∧
    unescapeShellChars ('x' :: "\\!".data) = 'x' :: unescapeShellChars ("\\!".data) :=
  ⟨unescapeShellChars_spec.1 ("abc".data) (by decide),
   unescapeShellChars_spec.2.2.1 'x' ("\\!".data) (by decide)⟩

/-- With no blocks source, plain-text mode off, and non-empty text, the
compose-and-post step sends exactly the single default block. -/
theorem composeAndPost_default (env : Env) (channelID text : List Char)
    (opts : sendOptions) (h5 : opts.simple = false) (h7 : text ≠ []) :
    (composeAndPost env channelID text [] opts).2 =
      [Effect.sendMessage channelID text opts.threadTS
        (some (buildDefaultBlocks text)) (!opts.noUnfurl)] := by
  cases hpm : env.postMessage channelID text opts.threadTS
      (some (buildDefaultBlocks text)) (!opts.noUnfurl) <;>
    simp [composeAndPost, h5, h7, hpm]

/-- The post-validation pipeline under the default-block conditions: one
send-message effect carrying the single default block, and nothing else. -/
theorem sendCore_default (env : Env) (channel text : List Char)
    (opts : sendOptions) (h2 : opts.blocksJSON = []) (h3 : opts.blocksFile = [])
    (h4 : opts.blocksStdin = false) (h5 : opts.simple = false)
    (h6 : opts.files = []) (h7 : text ≠ []) (h8 : text ≠ ['-'])
    (h9 : unescapeShellChars text = text)
    (h10 : trimHash channel ≠ []) (h11 : IsChannelID (trimHash channel) = true) :
    (sendCore env channel text opts).2 =
      [Effect.sendMessage (trimHash channel) text opts.threadTS
        (some (buildDefaultBlocks text)) (!opts.noUnfurl)] := by
  have hrc := resolveChannel_shape_aux env.listing channel h10 h11
  have hcp := composeAndPost_default env (trimHash channel) text opts h5 h7
  simp [sendCore, readTextArg, h8, readBlocksSource, h2, h3, h4, h9, h7, h6,
    hrc, hcp]

/-- An empty string is not a valid timestamp. -/
theorem validateTimestamp_nil : validateTimestamp [] = false := by decide

/-- C7: when no blocks source is supplied, no file upload is requested,
plain-text mode is not requested, the text is non-empty (and is an ordinary
literal text: not the stdin sentinel, and fixed by shell-unescaping), and the
channel token matches the channel-ID shape, `runSend` performs exactly one
network call: a send-message call whose blocks payload is exactly one
"section" block whose text object has type "mrkdwn" and whose content is the
provided text. -/
theorem runSend_default_block (env : Env) (channel text : List Char)
    (opts : sendOptions)
    (h1 : opts.threadTS = [] ∨ validateTimestamp opts.threadTS = true)
    (h2 : opts.blocksJSON = []) (h3 : opts.blocksFile = [])
    (h4 : opts.blocksStdin = false) (h5 : opts.simple = false)
    (h6 : opts.files = []) (h7 : text ≠ []) (h8 : text ≠ ['-'])
    (h9 : unescapeShellChars text = text)
    (h10 : trimHash channel ≠ []) (h11 : IsChannelID (trimHash channel) = true) :
    (runSend env channel text opts).2 =
      [Effect.sendMessage (trimHash channel) text
        (if opts.threadTS = [] then [] else normalizeTimestamp opts.threadTS)
        (some [⟨"section".data, ⟨"mrkdwn".data, text⟩⟩]) (!opts.noUnfurl)] := by
  rcases h1 with hts | hval
  · have hsc := sendCore_default env channel text opts h2 h3 h4 h5 h6 h7 h8 h9
      h10 h11
    simp [runSend, hts, blocksOptionsCount, h2, h3, h4, hsc, buildDefaultBlocks]
  · have hne : opts.threadTS ≠ [] := by
      intro hnil
      rw [hnil, validateTimestamp_nil] at hval
      exact absurd hval (by simp)
    have hsc := sendCore_default env channel text
      { opts with threadTS := normalizeTimestamp opts.threadTS }
      h2 h3 h4 h5 h6 h7 h8 h9 h10 h11
    simp only [h2, h3, h4, buildDefaultBlocks] at hsc
    simp [runSend, hne, hval, blocksOptionsCount, h2, h3, h4, hsc,
      buildDefaultBlocks]

/-- Witness for C7 at a concrete channel, text and option record. -/
theorem runSend_default_block_witness :
    (runSend dummyEnv ("#C123".data) ("hello".data) optsC7).2 =
      [Effect.sendMessage (trimHash ("#C123".data)) ("hello".data)
        (if optsC7.threadTS = [] then [] else normalizeTimestamp optsC7.threadTS)
        (some [⟨"section".data, ⟨"mrkdwn".data, "hello".data⟩⟩])
        (!optsC7.noUnfurl)] :=
  runSend_default_block dummyEnv ("#C123".data) ("hello".data) optsC7
    (Or.inl rfl) rfl rfl rfl rfl rfl (by decide) (by decide) (by decide)
    (by decide) (by decide)

/-- C8 amended: whenever the thread-timestamp option is unset or validly
formatted and more than one of the three blocks sources is set, `runSend`
fails immediately with the conflicting-blocks-source error naming all three
option flags, with an empty effect trace: no blocks source has been read and
no network call has been made. -/
theorem runSend_conflicting_blocks (env : Env) (channel text : List Char)
    (opts : sendOptions)
    (h1 : opts.threadTS = [] ∨ validateTimestamp opts.threadTS = true)
    (h2 : 1 < blocksOptionsCount opts) :
    runSend env channel text opts =
      (.error ("only one of --blocks, --blocks-file, or --blocks-stdin can be specified".data),
        []) := by
  rcases h1 with hts | hval
  · simp [runSend, hts, h2]
  · have hne : opts.threadTS ≠ [] := by
      intro hnil
      rw [hnil, validateTimestamp_nil] at hval
      exact absurd hval (by simp)
    have h2n : 1 < blocksOptionsCount
        { opts with threadTS := normalizeTimestamp opts.threadTS } := by
      simpa [blocksOptionsCount] using h2
    simp [runSend, hne, hval, h2n]

/-- Witness for the amended C8: inline JSON and a blocks file together. -/
theorem runSend_conflicting_blocks_witness :
    runSend dummyEnv ("C1".data) ("hi".data) optsC8w =
      (.error ("only one of --blocks, --blocks-file, or --blocks-stdin can be specified".data),
        []) :=
  runSend_conflicting_blocks dummyEnv ("C1".data) ("hi".data) optsC8w
    (Or.inl rfl) (by decide)

/-- Counterexample to C8 as stated: with an invalid thread timestamp also
set, a run with two blocks sources fails with the invalid-timestamp error,
not the conflicting-blocks-source error - timestamp validation runs first. -/
theorem runSend_conflicting_blocks_counterexample :
    runSend dummyEnv ("C1".data) ("hi".data) optsC8 =
      (Except.error ("invalid timestamp".data), []) ∧
    ("invalid timestamp".data : List Char) ≠
      ("only one of --blocks, --blocks-file, or --blocks-stdin can be specified".data) := by
  exact ⟨rfl, by decide⟩

/-- C2 amended: uploading two files where the first exists and uploads
successfully and the second fails to stat aborts the batch at the second
file's stat, after the first file's upload-slot request and byte upload but
before any upload call for the invalid entry, and with no finalize call. -/
theorem uploadFiles_second_missing (env : Env) (channelID text : List Char)
    (opts : sendOptions) (f1 f2 : List Char) (n : Nat) (url fid : List Char)
    (hf : opts.files = [f1, f2])
    (h1 : env.stat f1 = some n)
    (h2 : env.uploadURL (baseName f1) n = Except.ok (url, fid))
    (h3 : env.openOK f1 = true)
    (h4 : env.putBytes url = Except.ok ())
    (h5 : env.stat f2 = none) :
    uploadFiles env channelID text opts =
      (.error ("cannot access file ".data ++ f2),
        [Effect.getUploadURL (baseName f1) n, Effect.uploadBytes url]) := by
  simp [uploadFiles, uploadLoop, hf, h1, h2, h3, h4, h5]

/-- Witness for the amended C2 at the concrete environment. -/
theorem uploadFiles_second_missing_witness :
    uploadFiles envC2 ("C1".data) ("x".data) optsC2 =
      (.error ("cannot access file ".data ++ "b.txt".data),
        [Effect.getUploadURL (baseName ("a.txt".data)) 3,
          Effect.uploadBytes ("u".data)]) :=
  uploadFiles_second_missing envC2 ("C1".data) ("x".data) optsC2
    ("a.txt".data) ("b.txt".data) 3 ("u".data) ("F1".data)
    rfl (by decide) rfl rfl rfl (by decide)

/-- Counterexample to C2 as stated: in this concrete two-file run whose
second path does not exist, the effect trace contains the first file's two
network calls (upload-slot request and byte upload) - not zero network calls
for the first file - before the batch aborts with no finalize call. -/
theorem uploadFiles_second_missing_counterexample :
    uploadFiles envC2 ("C1".data) [] optsC2 =
      (Except.error ("cannot access file b.txt".data),
        [Effect.getUploadURL ("a.txt".data) 3, Effect.uploadBytes ("u".data)]) := rfl
